import Mathlib

set_option maxHeartbeats 1000000

/-! Shallow embedding of `src/main.rs` of `opensearch-index-cleaner`: the
retention engine (`cleanup_service`), its helpers (`sizeof_fmt`,
`filter_indices_by_pattern`, `days_between_today_and_date`) and the pure
payload construction of `send_notification`.  External collaborators (the
`aiven_rs` index-service client, `chrono` date parsing, the `fnmatch_regex`
glob translation, real time, the webhook transport) are modelled at their
interfaces; a Rust panic is modelled as `Except.error` carrying the state at
the moment of the panic. -/

/-- An index as listed by the index service (the `aiven_rs` `Index` fields
used by `main.rs`): a name and a size in bytes.  Sizes are `u64` in the
source; modelled as `Nat` (the source only adds them, and the one subtraction
is proved non-truncating below). -/
structure Index where
  index_name : String
  size : Nat
deriving Repr, DecidableEq

/-- A retention rule (main.rs:34-39). -/
structure Rule where
  index_pattern : String
  age_threshold : Int
  date_pattern : Option String
deriving Repr, DecidableEq

/-- A pre-cleanup summary-report bucket (main.rs:28-32). -/
structure SummaryReport where
  pattern : String
  name : String
deriving Repr, DecidableEq

/-- One recorded deletion outcome (main.rs:41-46). -/
structure ServiceResult where
  name : String
  size : Nat
  success : Bool
deriving Repr, DecidableEq

/-- The per-service run result (main.rs:48-56). -/
structure ServiceResults where
  deletes : List ServiceResult
  total : Nat
  total_remaining : Nat
  total_human_readable_msg : String
  failures : Nat
  reports : List (String × String)
deriving Repr, DecidableEq

/-- One notification attachment (main.rs:63-69). -/
structure Attachment where
  color : String
  text : String
  title : String
  title_link : Option String
deriving Repr, DecidableEq

/-- The notification payload (main.rs:58-61). -/
structure NotificationData where
  attachments : List Attachment
deriving Repr, DecidableEq

/-- Loop of `sizeof_fmt` (main.rs:71-80): walk the unit list, returning as
soon as the running value is below 1024 and dividing by 1024 otherwise; after
the last unit fall back to the `Yi` suffix. -/
def sizeofFmtLoop : List String → Nat → String
  | [], num => toString num ++ "Yi" ++ "B"
  | unit :: units, num =>
    if num < 1024 then toString num ++ unit ++ "B"
    else sizeofFmtLoop units (num / 1024)

/-- `sizeof_fmt` (main.rs:71-80). -/
def sizeof_fmt (num : Nat) : String :=
  sizeofFmtLoop ["", "Ki", "Mi", "Gi", "Ti", "Pi", "Ei", "Zi"] num

/-- Anchored shell-glob matching over a whole name: the semantics of
`fnmatch_regex::glob_to_regex(pattern)` followed by `re.is_match(name)`
(main.rs:86-89), for the `*`, `?` and literal-character forms used by
retention configurations. -/
def globMatch : List Char → List Char → Bool
  | [], s => s.isEmpty
  | '*' :: ps, s => s.tails.any (fun suffix => globMatch ps suffix)
  | '?' :: ps, s =>
    match s with
    | [] => false
    | _ :: cs => globMatch ps cs
  | c :: ps, s =>
    match s with
    | [] => false
    | c2 :: cs => c == c2 && globMatch ps cs

/-- `filter_indices_by_pattern` (main.rs:82-92). -/
def filter_indices_by_pattern (indices : List Index) (index_pattern : String) : List Index :=
  indices.filter (fun index => globMatch index_pattern.data index.index_name.data)

/-- Prefix test on character lists. -/
def charsPrefix : List Char → List Char → Bool
  | [], _ => true
  | _ :: _, [] => false
  | a :: as, b :: bs => a == b && charsPrefix as bs

/-- Rust `str::starts_with` (used at main.rs:158): does `s` start with `p`? -/
def str_starts_with (s : String) (p : String) : Bool :=
  charsPrefix p.data s.data

/-- A calendar date, as `chrono::NaiveDate`. -/
structure NaiveDate where
  year : Int
  month : Nat
  day : Nat
deriving Repr, DecidableEq

/-- Read exactly `n` decimal digits off the front of a character list,
returning their value and the remaining characters. -/
def takeDigits : Nat → List Char → Option (Nat × List Char)
  | 0, s => some (0, s)
  | _ + 1, [] => none
  | n + 1, c :: s =>
    if c.isDigit then
      match takeDigits n s with
      | none => none
      | some (v, rest) => some ((c.toNat - '0'.toNat) * 10 ^ n + v, rest)
    else none

/-- The fields accumulated while parsing a date token. -/
structure ParsedFields where
  y : Option Int
  m : Option Nat
  d : Option Nat
deriving Repr, DecidableEq

/-- Modelled from the spec: the strftime pattern walk inside `chrono`'s
`NaiveDate::parse_from_str` (an external library).  Supports the `%Y` (four
digits), `%m` and `%d` (two digits) specifiers used by retention rules and
literal characters otherwise; fails when the token does not conform. -/
def runPattern (p : List Char) (s : List Char) (acc : ParsedFields) : Option ParsedFields :=
  match p, s with
  | [], [] => some acc
  | [], _ :: _ => none
  | '%' :: 'Y' :: ps, s =>
    match takeDigits 4 s with
    | none => none
    | some (v, rest) => runPattern ps rest { acc with y := some (Int.ofNat v) }
  | '%' :: 'm' :: ps, s =>
    match takeDigits 2 s with
    | none => none
    | some (v, rest) => runPattern ps rest { acc with m := some v }
  | '%' :: 'd' :: ps, s =>
    match takeDigits 2 s with
    | none => none
    | some (v, rest) => runPattern ps rest { acc with d := some v }
  | '%' :: _ :: _, _ => none
  | ['%'], _ => none
  | _ :: _, [] => none
  | c :: ps, c2 :: s2 => if c = c2 then runPattern ps s2 acc else none

/-- Modelled from the spec: `chrono::NaiveDate::parse_from_str date_str
date_pattern` — parse the token against the pattern and require a full,
plausible calendar date. -/
def parse_from_str (date_str : String) (date_pattern : String) : Option NaiveDate :=
  match runPattern date_pattern.data date_str.data { y := none, m := none, d := none } with
  | some { y := some y, m := some m, d := some d } =>
    if 1 ≤ m ∧ m ≤ 12 ∧ 1 ≤ d ∧ d ≤ 31 then some { year := y, month := m, day := d }
    else none
  | _ => none

/-- Modelled from the spec: `chrono` day arithmetic — the proleptic-Gregorian
day number of a date (days since 1970-01-01), so that date subtraction is a
difference of day numbers. -/
def days_from_civil (date : NaiveDate) : Int :=
  let y : Int := if date.month ≤ 2 then date.year - 1 else date.year
  let era : Int := (if 0 ≤ y then y else y - 399) / 400
  let yoe : Int := y - era * 400
  let mp : Int := (Int.ofNat date.month + 9) % 12
  let doy : Int := (153 * mp + 2) / 5 + Int.ofNat date.day - 1
  let doe : Int := yoe * 365 + yoe / 4 - yoe / 100 + doy
  era * 146097 + doe - 719468

/-- `days_between_today_and_date` (main.rs:94-102), with `Utc::now()` made an
explicit `today` parameter.  `none` is the `DateParseError` case. -/
def days_between_today_and_date (today : NaiveDate) (date_pattern : String)
    (date_str : String) : Option Int :=
  match parse_from_str date_str date_pattern with
  | none => none
  | some input_date => some (days_from_civil today - days_from_civil input_date)

/-- The date token taken by `cleanup_service` (main.rs:162): the last 10 bytes
of the index name, `&index_name[index_name.len() - 10..]`.  For a name shorter
than 10 bytes the subtraction underflows and the slice panics (`none`); index
names are ASCII, so byte slicing is modelled on characters. -/
def extract_date_token (index_name : String) : Option String :=
  if index_name.data.length < 10 then none
  else some { data := index_name.data.drop (index_name.data.length - 10) }

/-- Modelled from the spec: the rendered length of a strftime date pattern —
`%Y` renders four characters, `%m` and `%d` two, any other character one. -/
def renderedLengthAux (p : List Char) : Nat :=
  match p with
  | '%' :: 'Y' :: ps => 4 + renderedLengthAux ps
  | '%' :: 'm' :: ps => 2 + renderedLengthAux ps
  | '%' :: 'd' :: ps => 2 + renderedLengthAux ps
  | _ :: ps => 1 + renderedLengthAux ps
  | [] => 0

/-- Rendered length of a date pattern string. -/
def renderedLength (date_pattern : String) : Nat :=
  renderedLengthAux date_pattern.data

/-- The mutable locals of the rule loop of `cleanup_service`
(main.rs:112-139), plus the trace of `delete_index` invocations (the
observable effect of main.rs:180). -/
structure CleanupState where
  total_data_deleted : Nat
  num_failures : Nat
  results : List ServiceResult
  index_already_deleted : List String
  delete_calls : List String
deriving Repr, DecidableEq

/-- The state at the top of the rule loop. -/
def initState : CleanupState :=
  { total_data_deleted := 0, num_failures := 0, results := [],
    index_already_deleted := [], delete_calls := [] }

/-- The state updates of main.rs:165-192 once an index has been selected
(`age > age_threshold`): issue the delete when not a dry run (counting a
failure if the collaborator fails), then claim the name, add the size, and
push the outcome.  The source initialises `success` with `false` and
re-assigns `success = true` unconditionally before the push (main.rs:191), so
the pushed outcome always carries `success := true`. -/
def pushSelected (dry_run : Bool) (delete_fn : String → Bool) (index : Index)
    (st : CleanupState) : CleanupState :=
  let st' :=
    if dry_run then st
    else
      { st with
        delete_calls := st.delete_calls ++ [index.index_name],
        num_failures :=
          if delete_fn index.index_name then st.num_failures else st.num_failures + 1 }
  { st' with
    index_already_deleted := st'.index_already_deleted ++ [index.index_name],
    total_data_deleted := st'.total_data_deleted + index.size,
    results := st'.results ++
      [{ name := index.index_name, size := index.size, success := true }] }

/-- The body of the inner index loop of `cleanup_service` (main.rs:149-194):
skip names already claimed by an earlier rule (`Vec::contains`, main.rs:151),
skip protected names (main.rs:158), then extract the date token and compute
the age — both `.unwrap()`ed in the source, so either failure panics
(`Except.error` with the state at that moment, main.rs:162-163) — and process
the index when it is older than the threshold. -/
def processIndex (today : NaiveDate) (dry_run : Bool) (delete_fn : String → Bool)
    (date_pattern : String) (age_threshold : Int)
    (st : CleanupState) (index : Index) : Except CleanupState CleanupState :=
  if index.index_name ∈ st.index_already_deleted then .ok st
  else if str_starts_with index.index_name "." then .ok st
  else
    match extract_date_token index.index_name with
    | none => .error st
    | some index_date_str =>
      match days_between_today_and_date today date_pattern index_date_str with
      | none => .error st
      | some age =>
        if age > age_threshold then .ok (pushSelected dry_run delete_fn index st)
        else .ok st

/-- One iteration of the rule loop (main.rs:140-195): default the date
pattern to `"%Y.%m.%d"` (main.rs:143-147), filter the indices by the rule's
glob, and run the index loop over the matches. -/
def processRule (today : NaiveDate) (dry_run : Bool) (delete_fn : String → Bool)
    (indices : List Index) (st : CleanupState) (rule : Rule) :
    Except CleanupState CleanupState :=
  (filter_indices_by_pattern indices rule.index_pattern).foldlM
    (processIndex today dry_run delete_fn (rule.date_pattern.getD "%Y.%m.%d")
      rule.age_threshold) st

/-- The whole rule loop of `cleanup_service` (main.rs:138-195). -/
def runRules (today : NaiveDate) (dry_run : Bool) (delete_fn : String → Bool)
    (indices : List Index) (rules : List Rule) : Except CleanupState CleanupState :=
  rules.foldlM (processRule today dry_run delete_fn indices) initState

/-- `full_index_size` (main.rs:116-120): the sum of the sizes of all scanned
indices, computed before any rule is applied. -/
def fullSize (indices : List Index) : Nat :=
  indices.foldl (fun acc index => acc + index.size) 0

/-- The summary-report loop (main.rs:122-137): one `(name, formatted size)`
row per spec, formatting the summed size of the matches, `sizeof_fmt 0` when
nothing matches. -/
def buildReports (indices : List Index) (summary_reports : List SummaryReport) :
    List (String × String) :=
  summary_reports.map (fun sum_report =>
    let indexes := filter_indices_by_pattern indices sum_report.pattern
    if !indexes.isEmpty then
      (sum_report.name, sizeof_fmt (indexes.foldl (fun acc index => acc + index.size) 0))
    else (sum_report.name, sizeof_fmt 0))

/-- `cleanup_service` (main.rs:104-212), with the index list (the reply of
`list_indexes`), the reference date and the delete collaborator as explicit
parameters.  A panic anywhere in the rule loop is `Except.error`. -/
def cleanup_service (today : NaiveDate) (name : String) (dry_run : Bool)
    (rules : List Rule) (summary_reports : List SummaryReport)
    (indices : List Index) (delete_fn : String → Bool) :
    Except CleanupState ServiceResults :=
  let full_index_size := fullSize indices
  let reports := buildReports indices summary_reports
  match runRules today dry_run delete_fn indices rules with
  | .error st => .error st
  | .ok st =>
    .ok { deletes := st.results
          total := st.total_data_deleted
          total_remaining := full_index_size - st.total_data_deleted
          total_human_readable_msg :=
            "Cleanup finished for " ++ name ++ " service: " ++
            sizeof_fmt st.total_data_deleted ++
            " data has been deleted. (Remaining data size: " ++
            sizeof_fmt (full_index_size - st.total_data_deleted) ++ ")"
          failures := st.num_failures
          reports := reports }

/-- The state carried by either constructor of a run outcome (the final state
of a completed run, or the state at the moment of a panic). -/
def exceptState {σ : Type} : Except σ σ → σ
  | .ok st => st
  | .error st => st

/-- Forget the delete-call trace of a state (used to compare a dry run with a
real run). -/
def stripCalls (st : CleanupState) : CleanupState :=
  { st with delete_calls := [] }

/-- Relate two run outcomes built with the same constructor by `R` on the
carried states. -/
def exceptRel {σ : Type} (R : σ → σ → Prop) : Except σ σ → Except σ σ → Prop
  | .ok a, .ok b => R a b
  | .error a, .error b => R a b
  | _, _ => False

/-- The (name, size) pairs of the outcomes recorded so far. -/
def statePairs (st : CleanupState) : Multiset (String × Nat) :=
  ↑(st.results.map (fun r => (r.name, r.size)))

/-- The (name, size) pairs of the scanned indices. -/
def indexPairs (indices : List Index) : Multiset (String × Nat) :=
  ↑(indices.map (fun index => (index.index_name, index.size)))

/-- Invariant of the rule loop of `cleanup_service`: the claimed-name list
mirrors the recorded outcomes, the recorded outcomes draw injectively (by
name) on the scanned indices, the running byte total sums the recorded sizes,
recorded names are pairwise distinct, protected names are neither recorded
nor sent to the delete collaborator, and every recorded outcome carries
`success = true`. -/
structure EngineInv (indices : List Index) (st : CleanupState) : Prop where
  already_eq : st.index_already_deleted = st.results.map (fun r => r.name)
  pairs_le : statePairs st ≤ indexPairs indices
  total_eq : st.total_data_deleted = (st.results.map (fun r => r.size)).sum
  names_nodup : (st.results.map (fun r => r.name)).Nodup
  no_protected : ∀ r ∈ st.results, str_starts_with r.name "." = false
  no_protected_calls : ∀ n ∈ st.delete_calls, str_starts_with n "." = false
  all_success : ∀ r ∈ st.results, r.success = true

/-- The accumulators of the loop of `send_notification` (main.rs:219-222). -/
structure NotifAcc where
  short_descriptions : List String
  all_deleted_indexes : List String
  has_failures : Bool
  all_report_texts : List String
deriving Repr, DecidableEq

/-- One iteration of the loop of `send_notification` (main.rs:224-268): the
per-service failure count is re-derived from the `success` flags
(main.rs:225), the status marker chosen from it, one detail line pushed per
recorded deletion (with the size only on the successful form,
main.rs:240-254), and the pre-cleanup summary block appended when present. -/
def notifStep (acc : NotifAcc) (kv : String × ServiceResults) : NotifAcc :=
  let key := kv.1
  let service_result := kv.2
  let failures := (service_result.deletes.filter (fun r => !r.success)).length
  let has_failures := if 0 < failures then true else acc.has_failures
  let status := if failures = 0 then ":white_check_mark:" else ":x:"
  let short_descriptions := acc.short_descriptions ++
    [service_result.total_human_readable_msg ++ " - " ++ status]
  let all_deleted_indexes := acc.all_deleted_indexes ++
    service_result.deletes.map (fun deleted_index =>
      if deleted_index.success then
        ":white_check_mark: - " ++ deleted_index.name ++ " (" ++ key ++ ") - size: " ++
          toString deleted_index.size ++ " bytes"
      else ":x: - " ++ deleted_index.name ++ " (" ++ key ++ ")")
  let all_report_texts :=
    if !service_result.reports.isEmpty then
      acc.all_report_texts ++
        ["Summary for " ++ key ++ " (pre-cleanup):\n" ++
          String.intercalate "\n"
            (service_result.reports.map (fun sr => sr.1 ++ ": " ++ sr.2)) ++ "\n"]
    else acc.all_report_texts
  { short_descriptions := short_descriptions, all_deleted_indexes := all_deleted_indexes,
    has_failures := has_failures, all_report_texts := all_report_texts }

/-- The accumulators after the whole loop of `send_notification`. -/
def notifAccOf (all_results : List (String × ServiceResults)) : NotifAcc :=
  all_results.foldl notifStep
    { short_descriptions := [], all_deleted_indexes := [],
      has_failures := false, all_report_texts := [] }

/-- The pure payload construction of `send_notification` (main.rs:214-302):
assemble the composite text, the title, the colour flag (main.rs:287) and the
optional title link (the `NOTIFICATION_TITLE_LINK` environment variable,
passed as a parameter). -/
def send_notification_payload (all_results : List (String × ServiceResults))
    (aiven_project : String) (title_link_var : String) : NotificationData :=
  let acc := notifAccOf all_results
  let all_report_texts_value :=
    if !acc.all_report_texts.isEmpty then
      "\n\n" ++ String.intercalate "\n" acc.all_report_texts
    else ""
  let details_text :=
    if !acc.all_deleted_indexes.isEmpty then
      "\n\nDetails:\n\n" ++ String.intercalate "\n" acc.all_deleted_indexes
    else "\n\nNot found any old indices by pre-defined rules."
  let output_text := String.intercalate "\n" acc.short_descriptions ++
    all_report_texts_value ++ details_text
  { attachments :=
      [{ color := if acc.has_failures then "#E01E5A" else "#2EB67D",
         text := output_text,
         title := aiven_project ++ " - Opensearch index cleanup",
         title_link := if !title_link_var.isEmpty then some title_link_var else none }] }

/-- Normative formatting function written from the spec's words (§4.3): scale
by powers of 1024 through the unit sequence, i.e. display with the first unit
whose scaled value is below 1024, and report with `Yi` past the largest
unit. -/
def sizeofFmtSpec (b : Nat) : String :=
  match (List.range 8).find? (fun k => b / 1024 ^ k < 1024) with
  | some k => toString (b / 1024 ^ k) ++
      (["", "Ki", "Mi", "Gi", "Ti", "Pi", "Ei", "Zi"].getD k "") ++ "B"
  | none => toString (b / 1024 ^ 8) ++ "Yi" ++ "B"

/-- Reference date of the worked example of spec §8. -/
def exToday : NaiveDate := { year := 2024, month := 6, day := 10 }

/-- Index list of the worked example of spec §8. -/
def exIndices : List Index :=
  [{ index_name := "logs-2023.01.01", size := 1024 },
   { index_name := "logs-2024.06.01", size := 2048 },
   { index_name := ".kibana", size := 512 }]

/-- Rule list of the worked example of spec §8. -/
def exRules : List Rule :=
  [{ index_pattern := "logs-*", age_threshold := 30, date_pattern := none }]

/-- The run result of the worked example of spec §8. -/
def exResult : ServiceResults :=
  { deletes := [{ name := "logs-2023.01.01", size := 1024, success := true }],
    total := 1024,
    total_remaining := 2560,
    total_human_readable_msg :=
      "Cleanup finished for svc service: 1KiB data has been deleted. (Remaining data size: 2KiB)",
    failures := 0,
    reports := [] }

theorem except_error_bind {σ β γ : Type} (e : σ) (g : β → Except σ γ) :
    (Except.error e >>= g) = Except.error e := rfl

theorem except_ok_bind {σ β γ : Type} (b : β) (g : β → Except σ γ) :
    (Except.ok b >>= g) = g b := rfl

/-- An invariant preserved by every loop step (also across a panic, whose
carried state is the state at the moment of the panic) holds of the state
carried by the outcome of the fold. -/
theorem except_foldlM_inv {α σ : Type} (P : σ → Prop) (f : σ → α → Except σ σ) :
    ∀ (l : List α), (∀ s a, a ∈ l → P s → P (exceptState (f s a))) →
      ∀ s, P s → P (exceptState (l.foldlM f s)) := by
  intro l
  induction l with
  | nil => intro _ s hs; simpa [exceptState] using hs
  | cons a as ih =>
    intro hstep s hs
    rw [List.foldlM_cons]
    have hfa := hstep s a (List.mem_cons_self a as) hs
    cases h : f s a with
    | error e =>
      rw [except_error_bind]
      rw [h] at hfa
      exact hfa
    | ok s1 =>
      rw [except_ok_bind]
      rw [h] at hfa
      simp only [exceptState] at hfa
      exact ih (fun s' a' ha' hp => hstep s' a' (List.mem_cons_of_mem _ ha') hp) s1 hfa

/-- A reflexive transitive relation that every successful loop step
establishes between its pre- and post-state relates the initial state of a
successful fold to its final state. -/
theorem except_foldlM_ok_rel {α σ : Type} (R : σ → σ → Prop)
    (hrefl : ∀ s, R s s) (htrans : ∀ a b c, R a b → R b c → R a c)
    (f : σ → α → Except σ σ) :
    ∀ (l : List α), (∀ s a s', a ∈ l → f s a = .ok s' → R s s') →
      ∀ s s', l.foldlM f s = .ok s' → R s s' := by
  intro l
  induction l with
  | nil =>
    intro _ s s' h
    rw [List.foldlM_nil] at h
    exact (Except.ok.inj h) ▸ hrefl s
  | cons a as ih =>
    intro hstep s s' h
    rw [List.foldlM_cons] at h
    cases hfa : f s a with
    | error e =>
      rw [hfa, except_error_bind] at h
      exact Except.noConfusion h
    | ok s1 =>
      rw [hfa, except_ok_bind] at h
      exact htrans _ _ _ (hstep s a s1 (List.mem_cons_self a as) hfa)
        (ih (fun s2 a2 s3 ha2 => hstep s2 a2 s3 (List.mem_cons_of_mem _ ha2)) s1 s' h)

/-- Two folds whose steps preserve a relation (and panic together) stay
related, outcome constructor included. -/
theorem except_foldlM_sim {α σ : Type} (R : σ → σ → Prop) (f g : σ → α → Except σ σ) :
    ∀ (l : List α), (∀ s1 s2 a, a ∈ l → R s1 s2 → exceptRel R (f s1 a) (g s2 a)) →
      ∀ s1 s2, R s1 s2 → exceptRel R (l.foldlM f s1) (l.foldlM g s2) := by
  intro l
  induction l with
  | nil =>
    intro _ s1 s2 hR
    rw [List.foldlM_nil, List.foldlM_nil]
    exact hR
  | cons a as ih =>
    intro hstep s1 s2 hR
    rw [List.foldlM_cons, List.foldlM_cons]
    have hfa := hstep s1 s2 a (List.mem_cons_self a as) hR
    cases h1 : f s1 a with
    | error e1 =>
      cases h2 : g s2 a with
      | error e2 =>
        rw [h1, h2] at hfa
        rw [except_error_bind, except_error_bind]
        exact hfa
      | ok t2 =>
        rw [h1, h2] at hfa
        exact absurd hfa (by simp [exceptRel])
    | ok t1 =>
      cases h2 : g s2 a with
      | error e2 =>
        rw [h1, h2] at hfa
        exact absurd hfa (by simp [exceptRel])
      | ok t2 =>
        rw [h1, h2] at hfa
        rw [except_ok_bind, except_ok_bind]
        exact ih (fun x y b hb => hstep x y b (List.mem_cons_of_mem _ hb)) t1 t2 hfa

/-- Splitting a fold over an appended list. -/
theorem except_foldlM_append {α σ : Type} (f : σ → α → Except σ σ) :
    ∀ (l1 l2 : List α) (s : σ),
      (l1 ++ l2).foldlM f s = (l1.foldlM f s >>= fun s1 => l2.foldlM f s1) := by
  intro l1
  induction l1 with
  | nil => intro l2 s; rfl
  | cons a l1 ih =>
    intro l2 s
    rw [List.cons_append, List.foldlM_cons, List.foldlM_cons]
    cases h : f s a with
    | error e => rw [except_error_bind, except_error_bind, except_error_bind]
    | ok s1 => rw [except_ok_bind, except_ok_bind]; exact ih l2 s1

theorem pushSelected_results (dry_run : Bool) (delete_fn : String → Bool)
    (index : Index) (st : CleanupState) :
    (pushSelected dry_run delete_fn index st).results = st.results ++
      [{ name := index.index_name, size := index.size, success := true }] := by
  cases dry_run <;> simp [pushSelected]

theorem pushSelected_already (dry_run : Bool) (delete_fn : String → Bool)
    (index : Index) (st : CleanupState) :
    (pushSelected dry_run delete_fn index st).index_already_deleted =
      st.index_already_deleted ++ [index.index_name] := by
  cases dry_run <;> simp [pushSelected]

theorem pushSelected_total (dry_run : Bool) (delete_fn : String → Bool)
    (index : Index) (st : CleanupState) :
    (pushSelected dry_run delete_fn index st).total_data_deleted =
      st.total_data_deleted + index.size := by
  cases dry_run <;> simp [pushSelected]

theorem pushSelected_calls (dry_run : Bool) (delete_fn : String → Bool)
    (index : Index) (st : CleanupState) :
    (pushSelected dry_run delete_fn index st).delete_calls =
      st.delete_calls ++ (if dry_run then [] else [index.index_name]) := by
  cases dry_run <;> simp [pushSelected]

theorem processIndex_inv {indices : List Index} {index : Index}
    (today : NaiveDate) (dry_run : Bool) (delete_fn : String → Bool)
    (date_pattern : String) (age_threshold : Int) (st : CleanupState)
    (hmem : index ∈ indices) (hinv : EngineInv indices st) :
    EngineInv indices
      (exceptState (processIndex today dry_run delete_fn date_pattern age_threshold st index)) := by
  unfold processIndex
  by_cases hdup : index.index_name ∈ st.index_already_deleted
  · rw [if_pos hdup]; exact hinv
  rw [if_neg hdup]
  by_cases hprot : str_starts_with index.index_name "." = true
  · rw [if_pos hprot]; exact hinv
  rw [if_neg hprot]
  have hprot' : str_starts_with index.index_name "." = false := by
    cases h : str_starts_with index.index_name "." with
    | false => rfl
    | true => exact absurd h hprot
  cases hex : extract_date_token index.index_name with
  | none => exact hinv
  | some tok =>
    show EngineInv indices (exceptState
      (match days_between_today_and_date today date_pattern tok with
       | none => Except.error st
       | some age =>
         if age > age_threshold then Except.ok (pushSelected dry_run delete_fn index st)
         else Except.ok st))
    cases hdays : days_between_today_and_date today date_pattern tok with
    | none => exact hinv
    | some age =>
      show EngineInv indices (exceptState
        (if age > age_threshold then Except.ok (pushSelected dry_run delete_fn index st)
         else Except.ok st))
      by_cases hage : age > age_threshold
      · rw [if_pos hage]
        show EngineInv indices (pushSelected dry_run delete_fn index st)
        have hnm : index.index_name ∉ st.results.map (fun r => r.name) := by
          rw [← hinv.already_eq]; exact hdup
        constructor
        · rw [pushSelected_already, pushSelected_results, List.map_append,
            hinv.already_eq]
          rfl
        · show statePairs (pushSelected dry_run delete_fn index st) ≤ indexPairs indices
          have hpairs : statePairs (pushSelected dry_run delete_fn index st) =
              statePairs st + {(index.index_name, index.size)} := by
            rw [statePairs, statePairs, pushSelected_results, List.map_append,
              ← Multiset.coe_singleton, Multiset.coe_add]
            rfl
          rw [hpairs]
          rw [Multiset.le_iff_count]
          intro x
          rw [Multiset.count_add]
          by_cases hx : x = (index.index_name, index.size)
          · subst hx
            have hc0 : Multiset.count (index.index_name, index.size) (statePairs st) = 0 := by
              rw [Multiset.count_eq_zero]
              intro hmem'
              rw [statePairs, Multiset.mem_coe] at hmem'
              apply hnm
              obtain ⟨r, hr, hpr⟩ := List.mem_map.mp hmem'
              have : r.name = index.index_name := congrArg Prod.fst hpr
              exact List.mem_map.mpr ⟨r, hr, this⟩
            have hc1 : 1 ≤ Multiset.count (index.index_name, index.size) (indexPairs indices) := by
              rw [Multiset.one_le_count_iff_mem]
              exact Multiset.mem_coe.mpr (List.mem_map.mpr ⟨index, hmem, rfl⟩)
            simp [hc0, hc1]
          · have hcx : Multiset.count x ({(index.index_name, index.size)} : Multiset _) = 0 := by
              simp [Multiset.count_singleton, hx]
            rw [hcx, Nat.add_zero]
            exact Multiset.le_iff_count.mp hinv.pairs_le x
        · rw [pushSelected_total, pushSelected_results, List.map_append,
            List.sum_append, hinv.total_eq]
          simp
        · rw [pushSelected_results, List.map_append]
          simp only [List.map_cons, List.map_nil]
          rw [List.nodup_append]
          exact ⟨hinv.names_nodup, List.nodup_singleton _,
            by intro x hx hx'; simp at hx'; subst hx'; exact hnm hx⟩
        · intro r hr
          rw [pushSelected_results] at hr
          rcases List.mem_append.mp hr with h1 | h1
          · exact hinv.no_protected r h1
          · simp at h1; subst h1; exact hprot'
        · intro n hn
          rw [pushSelected_calls] at hn
          rcases List.mem_append.mp hn with h1 | h1
          · exact hinv.no_protected_calls n h1
          · cases dry_run with
            | true => simp at h1
            | false => simp at h1; subst h1; exact hprot'
        · intro r hr
          rw [pushSelected_results] at hr
          rcases List.mem_append.mp hr with h1 | h1
          · exact hinv.all_success r h1
          · simp at h1; subst h1; rfl
      · rw [if_neg hage]; exact hinv

theorem initState_inv (indices : List Index) : EngineInv indices initState := by
  constructor <;> simp [initState, statePairs]

theorem runRules_inv (today : NaiveDate) (dry_run : Bool) (delete_fn : String → Bool)
    (indices : List Index) (rules : List Rule) :
    EngineInv indices (exceptState (runRules today dry_run delete_fn indices rules)) := by
  unfold runRules
  apply except_foldlM_inv (EngineInv indices) _ rules _ initState (initState_inv indices)
  intro s rule _ hs
  unfold processRule
  apply except_foldlM_inv (EngineInv indices) _ _ _ s hs
  intro s' index hmem hs'
  exact processIndex_inv today dry_run delete_fn _ _ s'
    (List.mem_filter.mp hmem).1 hs'

theorem foldl_add_size (l : List Index) :
    ∀ n : Nat, l.foldl (fun acc index => acc + index.size) n =
      n + (l.map (fun index => index.size)).sum := by
  induction l with
  | nil => intro n; simp
  | cons a as ih => intro n; simp [List.foldl_cons, ih, Nat.add_assoc]

theorem fullSize_eq (indices : List Index) :
    fullSize indices = (indices.map (fun index => index.size)).sum := by
  simpa [fullSize] using foldl_add_size indices 0

/-- The running byte total never exceeds the pre-rule total: the recorded
outcomes draw injectively on the scanned indices. -/
theorem total_le_fullSize {indices : List Index} {st : CleanupState}
    (hinv : EngineInv indices st) : st.total_data_deleted ≤ fullSize indices := by
  rw [hinv.total_eq, fullSize_eq]
  have h2 := Multiset.map_le_map (f := Prod.snd) hinv.pairs_le
  obtain ⟨u, hu⟩ := Multiset.le_iff_exists_add.mp h2
  have e1 : ((statePairs st).map Prod.snd).sum = (st.results.map (fun r => r.size)).sum := by
    rw [statePairs, Multiset.map_coe, Multiset.sum_coe, List.map_map]
    rfl
  have e2 : ((indexPairs indices).map Prod.snd).sum
      = (indices.map (fun index => index.size)).sum := by
    rw [indexPairs, Multiset.map_coe, Multiset.sum_coe, List.map_map]
    rfl
  have hs : ((indexPairs indices).map Prod.snd).sum
      = ((statePairs st).map Prod.snd).sum + u.sum := by
    rw [hu, Multiset.sum_add]
  rw [e1, e2] at hs
  rw [hs]
  exact Nat.le_add_right _ _

/-- A successful `cleanup_service` run is a successful rule loop, with the
result fields populated from its final state. -/
theorem cleanup_service_ok {today : NaiveDate} {name : String} {dry_run : Bool}
    {rules : List Rule} {summary_reports : List SummaryReport}
    {indices : List Index} {delete_fn : String → Bool} {r : ServiceResults}
    (h : cleanup_service today name dry_run rules summary_reports indices delete_fn = .ok r) :
    ∃ st, runRules today dry_run delete_fn indices rules = .ok st ∧
      r.deletes = st.results ∧ r.total = st.total_data_deleted ∧
      r.total_remaining = fullSize indices - st.total_data_deleted ∧
      r.failures = st.num_failures := by
  unfold cleanup_service at h
  cases hrun : runRules today dry_run delete_fn indices rules with
  | error st =>
    rw [hrun] at h
    exact Except.noConfusion h
  | ok st =>
    rw [hrun] at h
    have h2 := Except.ok.inj h
    subst h2
    exact ⟨st, rfl, rfl, rfl, rfl, rfl⟩

/-- Claim C5: in every completed run, `total_remaining + total` recovers the
sum of all scanned index sizes computed from the original index list before
any rule was applied, and `total` sums the sizes of exactly the recorded
(selected) indices — dry-run selections and failed real deletions
included, since the source adds `index.size` independently of the delete
result (main.rs:190). -/
theorem cleanup_size_conservation (today : NaiveDate) (name : String) (dry_run : Bool)
    (rules : List Rule) (summary_reports : List SummaryReport)
    (indices : List Index) (delete_fn : String → Bool) (r : ServiceResults)
    (h : cleanup_service today name dry_run rules summary_reports indices delete_fn = .ok r) :
    r.total_remaining + r.total = fullSize indices ∧
    r.total = (r.deletes.map (fun d => d.size)).sum := by
  obtain ⟨st, hrun, hdel, htot, hrem, _⟩ := cleanup_service_ok h
  have hinv := runRules_inv today dry_run delete_fn indices rules
  rw [hrun] at hinv
  simp only [exceptState] at hinv
  constructor
  · rw [hrem, htot]
    exact Nat.sub_add_cancel (total_le_fullSize hinv)
  · rw [htot, hdel]
    exact hinv.total_eq

/-- Witness for C5: the worked example of spec §8. -/
theorem cleanup_size_conservation_witness :
    exResult.total_remaining + exResult.total = fullSize exIndices ∧
    exResult.total = (exResult.deletes.map (fun d => d.size)).sum :=
  cleanup_size_conservation exToday "svc" false exRules [] exIndices (fun _ => true)
    exResult (by rfl)

/-- The three possible outcomes of one index step: skipped (state unchanged),
selected (state extended by `pushSelected`), or panicked. -/
theorem processIndex_cases (today : NaiveDate) (dry_run : Bool) (delete_fn : String → Bool)
    (date_pattern : String) (age_threshold : Int) (st : CleanupState) (index : Index) :
    processIndex today dry_run delete_fn date_pattern age_threshold st index = .ok st ∨
    processIndex today dry_run delete_fn date_pattern age_threshold st index =
      .ok (pushSelected dry_run delete_fn index st) ∨
    processIndex today dry_run delete_fn date_pattern age_threshold st index = .error st := by
  unfold processIndex
  by_cases hdup : index.index_name ∈ st.index_already_deleted
  · left; rw [if_pos hdup]
  rw [if_neg hdup]
  by_cases hprot : str_starts_with index.index_name "." = true
  · left; rw [if_pos hprot]
  rw [if_neg hprot]
  cases hex : extract_date_token index.index_name with
  | none => right; right; rfl
  | some tok =>
    cases hdays : days_between_today_and_date today date_pattern tok with
    | none =>
      right; right
      show (match days_between_today_and_date today date_pattern tok with
        | none => Except.error st
        | some age =>
          if age > age_threshold then Except.ok (pushSelected dry_run delete_fn index st)
          else Except.ok st) = Except.error st
      rw [hdays]
    | some age =>
      by_cases hage : age > age_threshold
      · right; left
        show (match days_between_today_and_date today date_pattern tok with
          | none => Except.error st
          | some age =>
            if age > age_threshold then Except.ok (pushSelected dry_run delete_fn index st)
            else Except.ok st) = Except.ok (pushSelected dry_run delete_fn index st)
        rw [hdays]
        show (if age > age_threshold then Except.ok (pushSelected dry_run delete_fn index st)
          else Except.ok st) = Except.ok (pushSelected dry_run delete_fn index st)
        rw [if_pos hage]
      · left
        show (match days_between_today_and_date today date_pattern tok with
          | none => Except.error st
          | some age =>
            if age > age_threshold then Except.ok (pushSelected dry_run delete_fn index st)
            else Except.ok st) = Except.ok st
        rw [hdays]
        show (if age > age_threshold then Except.ok (pushSelected dry_run delete_fn index st)
          else Except.ok st) = Except.ok st
        rw [if_neg hage]

/-- A successful index step only ever appends to the recorded outcomes. -/
theorem processIndex_results_mono {today : NaiveDate} {dry_run : Bool}
    {delete_fn : String → Bool} {date_pattern : String} {age_threshold : Int}
    {st st' : CleanupState} {index : Index}
    (h : processIndex today dry_run delete_fn date_pattern age_threshold st index = .ok st') :
    ∃ u, st.results ++ u = st'.results := by
  rcases processIndex_cases today dry_run delete_fn date_pattern age_threshold st index with
    hc | hc | hc
  · rw [hc] at h
    exact ⟨[], by rw [List.append_nil, Except.ok.inj h]⟩
  · rw [hc] at h
    have h2 := Except.ok.inj h
    exact ⟨[{ name := index.index_name, size := index.size, success := true }],
      by rw [← h2, pushSelected_results]⟩
  · rw [hc] at h
    exact Except.noConfusion h

/-- A successful rule step only ever appends to the recorded outcomes. -/
theorem processRule_results_mono {today : NaiveDate} {dry_run : Bool}
    {delete_fn : String → Bool} {indices : List Index} {st st' : CleanupState} {rule : Rule}
    (h : processRule today dry_run delete_fn indices st rule = .ok st') :
    ∃ u, st.results ++ u = st'.results := by
  unfold processRule at h
  exact except_foldlM_ok_rel (fun s t => ∃ u, s.results ++ u = t.results)
    (fun s => ⟨[], List.append_nil _⟩)
    (fun a b c hab hbc => by
      obtain ⟨u1, hu1⟩ := hab
      obtain ⟨u2, hu2⟩ := hbc
      exact ⟨u1 ++ u2, by rw [← List.append_assoc, hu1, hu2]⟩)
    _ _ (fun s a s2 _ ha => processIndex_results_mono ha) _ _ h

/-- Claim C6: each index name appears at most once among the recorded
deletions even when matched by several rules; an index already claimed is
skipped unchanged by any later evaluation (the claim happens on selection,
regardless of the delete call's result, main.rs:189), and the deletions of a
run over `rules1 ++ rules2` extend those of the run over `rules1` — the
entry for an index selected under an earlier rule is the earlier rule's. -/
theorem cleanup_dedup_first_match (today : NaiveDate) (dry_run : Bool)
    (delete_fn : String → Bool) (indices : List Index) :
    (∀ (name : String) (rules : List Rule) (summary_reports : List SummaryReport)
        (r : ServiceResults),
      cleanup_service today name dry_run rules summary_reports indices delete_fn = .ok r →
      (r.deletes.map (fun d => d.name)).Nodup) ∧
    (∀ (date_pattern : String) (age_threshold : Int) (st : CleanupState) (index : Index),
      index.index_name ∈ st.index_already_deleted →
      processIndex today dry_run delete_fn date_pattern age_threshold st index = .ok st) ∧
    (∀ (rules1 rules2 : List Rule) (st : CleanupState),
      runRules today dry_run delete_fn indices (rules1 ++ rules2) = .ok st →
      ∃ st1 u, runRules today dry_run delete_fn indices rules1 = .ok st1 ∧
        st1.results ++ u = st.results) := by
  refine ⟨?_, ?_, ?_⟩
  · intro name rules summary_reports r h
    obtain ⟨st, hrun, hdel, _, _, _⟩ := cleanup_service_ok h
    have hinv := runRules_inv today dry_run delete_fn indices rules
    rw [hrun] at hinv
    simp only [exceptState] at hinv
    rw [hdel]
    exact hinv.names_nodup
  · intro date_pattern age_threshold st index h
    unfold processIndex
    rw [if_pos h]
  · intro rules1 rules2 st h
    unfold runRules at h
    rw [except_foldlM_append] at h
    cases h1 : List.foldlM (processRule today dry_run delete_fn indices) initState rules1 with
    | error e =>
      rw [h1, except_error_bind] at h
      exact Except.noConfusion h
    | ok st1 =>
      rw [h1, except_ok_bind] at h
      have hmono : ∃ u, st1.results ++ u = st.results :=
        except_foldlM_ok_rel (fun s t => ∃ u, s.results ++ u = t.results)
          (fun s => ⟨[], List.append_nil _⟩)
          (fun a b c hab hbc => by
            obtain ⟨u1, hu1⟩ := hab
            obtain ⟨u2, hu2⟩ := hbc
            exact ⟨u1 ++ u2, by rw [← List.append_assoc, hu1, hu2]⟩)
          _ _ (fun s a s2 _ ha => processRule_results_mono ha) _ _ h
      obtain ⟨u, hu⟩ := hmono
      exact ⟨st1, u, h1, hu⟩

/-- Witness for C6: on the spec §8 example the single recorded deletion list
has pairwise-distinct names. -/
theorem cleanup_dedup_first_match_witness :
    cleanup_service exToday "svc" false exRules [] exIndices (fun _ => true) = .ok exResult ∧
    (exResult.deletes.map (fun d => d.name)).Nodup :=
  ⟨by rfl,
    (cleanup_dedup_first_match exToday false (fun _ => true) exIndices).1 "svc" exRules []
      exResult (by rfl)⟩

/-- Claim C7: no index whose name begins with the reserved prefix `.` is ever
recorded among the deletions or sent to the delete collaborator — in
completed runs and, for the recorded state, even in panicked ones. -/
theorem cleanup_protected_never_deleted (today : NaiveDate) (name : String) (dry_run : Bool)
    (rules : List Rule) (summary_reports : List SummaryReport)
    (indices : List Index) (delete_fn : String → Bool) :
    (∀ d ∈ (exceptState (runRules today dry_run delete_fn indices rules)).results,
      str_starts_with d.name "." = false) ∧
    (∀ n ∈ (exceptState (runRules today dry_run delete_fn indices rules)).delete_calls,
      str_starts_with n "." = false) ∧
    (∀ r : ServiceResults,
      cleanup_service today name dry_run rules summary_reports indices delete_fn = .ok r →
      ∀ d ∈ r.deletes, str_starts_with d.name "." = false) := by
  have hinv := runRules_inv today dry_run delete_fn indices rules
  refine ⟨hinv.no_protected, hinv.no_protected_calls, ?_⟩
  intro r h d hd
  obtain ⟨st, hrun, hdel, _, _, _⟩ := cleanup_service_ok h
  have hinv2 := runRules_inv today dry_run delete_fn indices rules
  rw [hrun] at hinv2
  simp only [exceptState] at hinv2
  rw [hdel] at hd
  exact hinv2.no_protected d hd

/-- Witness for C7: on the spec §8 example (which contains `.kibana`) the one
recorded deletion is not a protected name. -/
theorem cleanup_protected_never_deleted_witness :
    cleanup_service exToday "svc" false exRules [] exIndices (fun _ => true) = .ok exResult ∧
    str_starts_with "logs-2023.01.01" "." = false :=
  ⟨by rfl,
    (cleanup_protected_never_deleted exToday "svc" false exRules [] exIndices
        (fun _ => true)).2.2 exResult (by rfl)
      { name := "logs-2023.01.01", size := 1024, success := true } (by simp [exResult])⟩

theorem pushSelected_failures (dry_run : Bool) (delete_fn : String → Bool)
    (index : Index) (st : CleanupState) :
    (pushSelected dry_run delete_fn index st).num_failures =
      if dry_run then st.num_failures
      else if delete_fn index.index_name then st.num_failures else st.num_failures + 1 := by
  cases dry_run <;> simp [pushSelected]

theorem stripCalls_eq_iff {s1 s2 : CleanupState} :
    stripCalls s1 = stripCalls s2 ↔
      s1.total_data_deleted = s2.total_data_deleted ∧ s1.num_failures = s2.num_failures ∧
      s1.results = s2.results ∧ s1.index_already_deleted = s2.index_already_deleted := by
  constructor
  · intro h
    have e1 : (stripCalls s1).total_data_deleted = (stripCalls s2).total_data_deleted :=
      congrArg _ h
    have e2 : (stripCalls s1).num_failures = (stripCalls s2).num_failures := congrArg _ h
    have e3 : (stripCalls s1).results = (stripCalls s2).results := congrArg _ h
    have e4 : (stripCalls s1).index_already_deleted = (stripCalls s2).index_already_deleted :=
      congrArg _ h
    exact ⟨e1, e2, e3, e4⟩
  · intro ⟨h1, h2, h3, h4⟩
    cases s1; cases s2
    simp_all [stripCalls]

/-- One index step of a dry run and of a real run whose delete collaborator
always succeeds move related states to related states (and panic
together). -/
theorem processIndex_dry_sim (today : NaiveDate) (delete_fn : String → Bool)
    (date_pattern : String) (age_threshold : Int) (index : Index)
    (s1 s2 : CleanupState) (hR : stripCalls s1 = stripCalls s2) :
    exceptRel (fun a b => stripCalls a = stripCalls b)
      (processIndex today true delete_fn date_pattern age_threshold s1 index)
      (processIndex today false (fun _ => true) date_pattern age_threshold s2 index) := by
  obtain ⟨ht, hf, hres, halready⟩ := stripCalls_eq_iff.mp hR
  unfold processIndex
  by_cases hdup : index.index_name ∈ s2.index_already_deleted
  · rw [if_pos hdup, if_pos (halready ▸ hdup)]
    exact hR
  · rw [if_neg hdup, if_neg (fun hc => hdup (halready ▸ hc))]
    by_cases hprot : str_starts_with index.index_name "." = true
    · rw [if_pos hprot, if_pos hprot]
      exact hR
    · rw [if_neg hprot, if_neg hprot]
      cases hex : extract_date_token index.index_name with
      | none => exact hR
      | some tok =>
        show exceptRel (fun a b => stripCalls a = stripCalls b)
          (match days_between_today_and_date today date_pattern tok with
            | none => Except.error s1
            | some age =>
              if age > age_threshold then
                Except.ok (pushSelected true delete_fn index s1)
              else Except.ok s1)
          (match days_between_today_and_date today date_pattern tok with
            | none => Except.error s2
            | some age =>
              if age > age_threshold then
                Except.ok (pushSelected false (fun _ => true) index s2)
              else Except.ok s2)
        cases hdays : days_between_today_and_date today date_pattern tok with
        | none => exact hR
        | some age =>
          show exceptRel (fun a b => stripCalls a = stripCalls b)
            (if age > age_threshold then Except.ok (pushSelected true delete_fn index s1)
              else Except.ok s1)
            (if age > age_threshold then Except.ok (pushSelected false (fun _ => true) index s2)
              else Except.ok s2)
          by_cases hage : age > age_threshold
          · rw [if_pos hage, if_pos hage]
            show stripCalls (pushSelected true delete_fn index s1) =
              stripCalls (pushSelected false (fun _ => true) index s2)
            apply stripCalls_eq_iff.mpr
            refine ⟨?_, ?_, ?_, ?_⟩
            · rw [pushSelected_total, pushSelected_total, ht]
            · rw [pushSelected_failures, pushSelected_failures]
              simp [hf]
            · rw [pushSelected_results, pushSelected_results, hres]
            · rw [pushSelected_already, pushSelected_already, halready]
          · rw [if_neg hage, if_neg hage]
            exact hR

/-- A dry-run index step never records a delete call. -/
theorem processIndex_dry_calls (today : NaiveDate) (delete_fn : String → Bool)
    (date_pattern : String) (age_threshold : Int) (st : CleanupState) (index : Index)
    (h : st.delete_calls = []) :
    (exceptState
      (processIndex today true delete_fn date_pattern age_threshold st index)).delete_calls
      = [] := by
  rcases processIndex_cases today true delete_fn date_pattern age_threshold st index with
    hc | hc | hc <;> rw [hc]
  · exact h
  · simp only [exceptState]
    rw [pushSelected_calls]
    simp [h]
  · exact h

/-- A dry run never invokes the delete collaborator. -/
theorem runRules_dry_calls (today : NaiveDate) (delete_fn : String → Bool)
    (indices : List Index) (rules : List Rule) :
    (exceptState (runRules today true delete_fn indices rules)).delete_calls = [] := by
  unfold runRules
  apply except_foldlM_inv (fun st => st.delete_calls = []) _ rules _ initState rfl
  intro s rule _ hs
  unfold processRule
  apply except_foldlM_inv (fun st => st.delete_calls = []) _ _ _ s hs
  intro s' index _ hs'
  exact processIndex_dry_calls today delete_fn _ _ s' index hs'

/-- The rule loops of a dry run and of an all-successes real run stay in
lockstep up to the delete-call trace. -/
theorem runRules_dry_sim (today : NaiveDate) (delete_fn : String → Bool)
    (indices : List Index) (rules : List Rule) :
    exceptRel (fun a b => stripCalls a = stripCalls b)
      (runRules today true delete_fn indices rules)
      (runRules today false (fun _ => true) indices rules) := by
  unfold runRules
  refine except_foldlM_sim _ _ _ rules ?_ initState initState rfl
  intro s1 s2 rule _ hR
  unfold processRule
  refine except_foldlM_sim _ _ _ _ ?_ s1 s2 hR
  intro t1 t2 index _ hR2
  exact processIndex_dry_sim today delete_fn _ _ index t1 t2 hR2

theorem cleanup_service_error {today : NaiveDate} {name : String} {dry_run : Bool}
    {rules : List Rule} {summary_reports : List SummaryReport}
    {indices : List Index} {delete_fn : String → Bool} {e : CleanupState}
    (h : runRules today dry_run delete_fn indices rules = .error e) :
    cleanup_service today name dry_run rules summary_reports indices delete_fn = .error e := by
  unfold cleanup_service
  rw [h]

theorem cleanup_service_of_runRules_ok {today : NaiveDate} {name : String} {dry_run : Bool}
    {rules : List Rule} {summary_reports : List SummaryReport}
    {indices : List Index} {delete_fn : String → Bool} {st : CleanupState}
    (h : runRules today dry_run delete_fn indices rules = .ok st) :
    cleanup_service today name dry_run rules summary_reports indices delete_fn =
      .ok { deletes := st.results, total := st.total_data_deleted,
            total_remaining := fullSize indices - st.total_data_deleted,
            total_human_readable_msg := "Cleanup finished for " ++ name ++ " service: " ++
              sizeof_fmt st.total_data_deleted ++
              " data has been deleted. (Remaining data size: " ++
              sizeof_fmt (fullSize indices - st.total_data_deleted) ++ ")",
            failures := st.num_failures,
            reports := buildReports indices summary_reports } := by
  unfold cleanup_service
  rw [h]

/-- Claim C8: a dry run never invokes the delete collaborator, and it
produces the same deletions sequence and byte accounting (indeed the same
whole result) as a real run in which every delete call succeeds, with
`succeeded = true` for every selected index. -/
theorem dry_run_refinement (today : NaiveDate) (name : String) (rules : List Rule)
    (summary_reports : List SummaryReport) (indices : List Index)
    (delete_fn : String → Bool) :
    (exceptState (runRules today true delete_fn indices rules)).delete_calls = [] ∧
    (cleanup_service today name true rules summary_reports indices delete_fn).toOption =
      (cleanup_service today name false rules summary_reports indices (fun _ => true)).toOption ∧
    (∀ r : ServiceResults,
      cleanup_service today name true rules summary_reports indices delete_fn = .ok r →
      ∀ d ∈ r.deletes, d.success = true) := by
  refine ⟨runRules_dry_calls today delete_fn indices rules, ?_, ?_⟩
  · have hsim := runRules_dry_sim today delete_fn indices rules
    cases h1 : runRules today true delete_fn indices rules with
    | error e1 =>
      cases h2 : runRules today false (fun _ => true) indices rules with
      | error e2 =>
        rw [@cleanup_service_error today name true rules summary_reports indices delete_fn e1 h1,
          @cleanup_service_error today name false rules summary_reports indices
            (fun _ => true) e2 h2]
        rfl
      | ok t2 =>
        rw [h1, h2] at hsim
        exact absurd hsim (by simp [exceptRel])
    | ok t1 =>
      cases h2 : runRules today false (fun _ => true) indices rules with
      | error e2 =>
        rw [h1, h2] at hsim
        exact absurd hsim (by simp [exceptRel])
      | ok t2 =>
        rw [h1, h2] at hsim
        obtain ⟨ht, hf, hres, _⟩ := stripCalls_eq_iff.mp hsim
        rw [@cleanup_service_of_runRules_ok today name true rules summary_reports indices
            delete_fn t1 h1,
          @cleanup_service_of_runRules_ok today name false rules summary_reports indices
            (fun _ => true) t2 h2]
        rw [ht, hf, hres]
  · intro r h d hd
    obtain ⟨st, hrun, hdel, _, _, _⟩ := cleanup_service_ok h
    have hinv := runRules_inv today true delete_fn indices rules
    rw [hrun] at hinv
    simp only [exceptState] at hinv
    rw [hdel] at hd
    exact hinv.all_success d hd

/-- Witness for C8: the spec §8 example run in dry-run mode against a
collaborator that would always fail. -/
theorem dry_run_refinement_witness :
    (exceptState (runRules exToday true (fun _ => false) exIndices exRules)).delete_calls = [] ∧
    (cleanup_service exToday "svc" true exRules [] exIndices (fun _ => false)).toOption =
      (cleanup_service exToday "svc" false exRules [] exIndices (fun _ => true)).toOption ∧
    ({ name := "logs-2023.01.01", size := 1024, success := true } : ServiceResult).success
      = true := by
  obtain ⟨h1, h2, h3⟩ := dry_run_refinement exToday "svc" exRules [] exIndices (fun _ => false)
  exact ⟨h1, h2, h3 exResult (by rfl) _ (by simp [exResult])⟩

/-- The unit loop returns the value scaled by the first power of 1024 that
brings it under 1024, with the unit of that position, and falls back to `Yi`
when no position works. -/
theorem sizeofFmtLoop_eq_find (us : List String) : ∀ b : Nat,
    sizeofFmtLoop us b =
      match (List.range us.length).find? (fun k => b / 1024 ^ k < 1024) with
      | some k => toString (b / 1024 ^ k) ++ us.getD k "" ++ "B"
      | none => toString (b / 1024 ^ us.length) ++ "Yi" ++ "B" := by
  induction us with
  | nil =>
    intro b
    simp [sizeofFmtLoop]
  | cons u us ih =>
    intro b
    show (if b < 1024 then toString b ++ u ++ "B" else sizeofFmtLoop us (b / 1024)) = _
    by_cases hb : b < 1024
    · have hfind : (List.range (u :: us).length).find?
          (fun k => decide (b / 1024 ^ k < 1024)) = some 0 := by
        rw [List.length_cons, List.range_succ_eq_map]
        exact List.find?_cons_of_pos _ (by simpa using hb)
      rw [if_pos hb, hfind]
      simp
    · have hdiv : ∀ k : Nat, b / 1024 / 1024 ^ k = b / 1024 ^ (k + 1) := by
        intro k
        rw [Nat.div_div_eq_div_mul, ← pow_succ']
      have hfind : (List.range (u :: us).length).find?
            (fun k => decide (b / 1024 ^ k < 1024)) =
          Option.map Nat.succ ((List.range us.length).find?
            (fun k => decide (b / 1024 / 1024 ^ k < 1024))) := by
        rw [List.length_cons, List.range_succ_eq_map,
          List.find?_cons_of_neg _ (by simpa using hb), List.find?_map]
        have hp : ((fun k => decide (b / 1024 ^ k < 1024)) ∘ Nat.succ) =
            (fun k => decide (b / 1024 / 1024 ^ k < 1024)) := by
          funext k
          simp [Function.comp, hdiv k]
        rw [hp]
      rw [if_neg hb, ih (b / 1024), hfind]
      cases hF : (List.range us.length).find? (fun k => decide (b / 1024 / 1024 ^ k < 1024)) with
      | none => simp [hdiv]
      | some k => simp [hdiv k]

/-- Claim C9: `sizeof_fmt` scales by powers of 1024 through the unit sequence
`"", Ki, Mi, Gi, Ti, Pi, Ei, Zi` — it displays the value with the first
unit whose scaled value is below 1024, falls back to `Yi` past the largest
unit, and in particular `sizeof_fmt 0 = "0B"` and `sizeof_fmt 1536 = "1KiB"`
(integer truncation after one division). -/
theorem sizeof_fmt_spec_conformance :
    sizeof_fmt 0 = "0B" ∧ sizeof_fmt 1536 = "1KiB" ∧
    ∀ b : Nat, sizeof_fmt b = sizeofFmtSpec b := by
  refine ⟨rfl, rfl, ?_⟩
  intro b
  rw [sizeof_fmt, sizeofFmtLoop_eq_find, sizeofFmtSpec]
  rfl

/-- Claim C10: on every `u64` input the `Yi` fallback of `sizeof_fmt` is
unreachable and the emitted unit is at most `Ei`: since `2 ^ 64 < 1024 ^ 7`,
at most six divisions by 1024 bring the value under 1024, so `Zi` and `Yi`
are never produced. -/
theorem sizeof_fmt_unit_bounded (b : Nat) (h : b < 2 ^ 64) :
    ∃ k, k ≤ 6 ∧ b / 1024 ^ k < 1024 ∧
      sizeof_fmt b = toString (b / 1024 ^ k) ++
        (["", "Ki", "Mi", "Gi", "Ti", "Pi", "Ei"].getD k "") ++ "B" := by
  have h6 : b / 1024 ^ 6 < 1024 := by
    apply Nat.div_lt_of_lt_mul
    calc b < 2 ^ 64 := h
      _ < 1024 ^ 6 * 1024 := by norm_num
  have hrange : List.range
      (["", "Ki", "Mi", "Gi", "Ti", "Pi", "Ei", "Zi"] : List String).length =
      [0, 1, 2, 3, 4, 5, 6, 7] := rfl
  by_cases h0 : b / 1024 ^ 0 < 1024
  · refine ⟨0, by norm_num, h0, ?_⟩
    rw [sizeof_fmt, sizeofFmtLoop_eq_find, hrange,
      List.find?_cons_of_pos _ (by simpa using h0)]
    rfl
  by_cases h1 : b / 1024 ^ 1 < 1024
  · refine ⟨1, by norm_num, h1, ?_⟩
    rw [sizeof_fmt, sizeofFmtLoop_eq_find, hrange,
      List.find?_cons_of_neg _ (by simpa using h0),
      List.find?_cons_of_pos _ (by simpa using h1)]
    rfl
  by_cases h2 : b / 1024 ^ 2 < 1024
  · refine ⟨2, by norm_num, h2, ?_⟩
    rw [sizeof_fmt, sizeofFmtLoop_eq_find, hrange,
      List.find?_cons_of_neg _ (by simpa using h0),
      List.find?_cons_of_neg _ (by simpa using h1),
      List.find?_cons_of_pos _ (by simpa using h2)]
    rfl
  by_cases h3 : b / 1024 ^ 3 < 1024
  · refine ⟨3, by norm_num, h3, ?_⟩
    rw [sizeof_fmt, sizeofFmtLoop_eq_find, hrange,
      List.find?_cons_of_neg _ (by simpa using h0),
      List.find?_cons_of_neg _ (by simpa using h1),
      List.find?_cons_of_neg _ (by simpa using h2),
      List.find?_cons_of_pos _ (by simpa using h3)]
    rfl
  by_cases h4 : b / 1024 ^ 4 < 1024
  · refine ⟨4, by norm_num, h4, ?_⟩
    rw [sizeof_fmt, sizeofFmtLoop_eq_find, hrange,
      List.find?_cons_of_neg _ (by simpa using h0),
      List.find?_cons_of_neg _ (by simpa using h1),
      List.find?_cons_of_neg _ (by simpa using h2),
      List.find?_cons_of_neg _ (by simpa using h3),
      List.find?_cons_of_pos _ (by simpa using h4)]
    rfl
  by_cases h5 : b / 1024 ^ 5 < 1024
  · refine ⟨5, by norm_num, h5, ?_⟩
    rw [sizeof_fmt, sizeofFmtLoop_eq_find, hrange,
      List.find?_cons_of_neg _ (by simpa using h0),
      List.find?_cons_of_neg _ (by simpa using h1),
      List.find?_cons_of_neg _ (by simpa using h2),
      List.find?_cons_of_neg _ (by simpa using h3),
      List.find?_cons_of_neg _ (by simpa using h4),
      List.find?_cons_of_pos _ (by simpa using h5)]
    rfl
  refine ⟨6, by norm_num, h6, ?_⟩
  rw [sizeof_fmt, sizeofFmtLoop_eq_find, hrange,
    List.find?_cons_of_neg _ (by simpa using h0),
    List.find?_cons_of_neg _ (by simpa using h1),
    List.find?_cons_of_neg _ (by simpa using h2),
    List.find?_cons_of_neg _ (by simpa using h3),
    List.find?_cons_of_neg _ (by simpa using h4),
    List.find?_cons_of_neg _ (by simpa using h5),
    List.find?_cons_of_pos _ (by simpa using h6)]
  rfl

/-- Witness for C10: one exbibyte formats with the `Ei` unit. -/
theorem sizeof_fmt_unit_bounded_witness :
    2 ^ 60 < 2 ^ 64 ∧
    ∃ k, k ≤ 6 ∧ 2 ^ 60 / 1024 ^ k < 1024 ∧
      sizeof_fmt (2 ^ 60) = toString (2 ^ 60 / 1024 ^ k) ++
        (["", "Ki", "Mi", "Gi", "Ti", "Pi", "Ei"].getD k "") ++ "B" :=
  ⟨by norm_num, sizeof_fmt_unit_bounded (2 ^ 60) (by norm_num)⟩

/-- Claim C1 (code bug): an index whose extracted date token does not parse
panics the whole run — the source unwraps the parse result
(`days_between_today_and_date(...).unwrap()`, main.rs:163) — instead of
recording a per-index failure and continuing: the run aborts with nothing
recorded. -/
theorem date_parse_failure_panics :
    cleanup_service exToday "svc" false
      [{ index_pattern := "logs-*", age_threshold := 0, date_pattern := none }] []
      [{ index_name := "logs-aaaaaaaaaa", size := 100 }] (fun _ => true)
      = .error initState := by rfl

/-- Counterexample for C2: with the date pattern `"%Y%m%d"` (rendered length
8) the engine still slices the last 10 characters (main.rs:162) — the token
passed to the age evaluator has length 10, not the pattern's rendered
length 8; the 10-character token no longer parses under the rule's own
pattern, while the rendered-length suffix would. -/
theorem date_token_width_counterexample :
    renderedLength "%Y%m%d" = 8 ∧
    extract_date_token "logs-20200115" = some "s-20200115" ∧
    (extract_date_token "logs-20200115").map (fun tok => tok.data.length) = some 10 ∧
    days_between_today_and_date exToday "%Y%m%d" "s-20200115" = none ∧
    days_between_today_and_date exToday "%Y%m%d" "20200115" = some 1608 ∧
    (10 : Nat) ≠ 8 :=
  ⟨rfl, rfl, rfl, rfl, rfl, by decide⟩

/-- Claim C2 amended: the date token passed to the age evaluator is always
the last 10 characters of the index name, whatever the rule's date pattern;
its length equals the pattern's rendered length exactly when that length is
10, as it is for the default pattern `"%Y.%m.%d"`. -/
theorem date_token_width_amended (index_name : String) (date_pattern : String)
    (h : 10 ≤ index_name.data.length) :
    ∃ tok, extract_date_token index_name = some tok ∧ tok.data.length = 10 ∧
      (renderedLength date_pattern = 10 → tok.data.length = renderedLength date_pattern) ∧
      renderedLength "%Y.%m.%d" = 10 := by
  have hlen : ({ data := index_name.data.drop (index_name.data.length - 10) } : String).data.length
      = 10 := by
    show (index_name.data.drop (index_name.data.length - 10)).length = 10
    rw [List.length_drop]
    omega
  refine ⟨{ data := index_name.data.drop (index_name.data.length - 10) }, ?_, hlen, ?_, rfl⟩
  · unfold extract_date_token
    rw [if_neg (by omega)]
  · intro hrl
    rw [hrl, hlen]

/-- Witness for C2 (amended): the default pattern and a default-shaped
name. -/
theorem date_token_width_amended_witness :
    10 ≤ ("logs-2020.01.01" : String).data.length ∧
    ∃ tok, extract_date_token "logs-2020.01.01" = some tok ∧ tok.data.length = 10 ∧
      (renderedLength "%Y.%m.%d" = 10 → tok.data.length = renderedLength "%Y.%m.%d") ∧
      renderedLength "%Y.%m.%d" = 10 :=
  ⟨by decide, date_token_width_amended "logs-2020.01.01" "%Y.%m.%d" (by decide)⟩

/-- Claim C3 (code bug): when the delete collaborator fails, the source
increments `num_failures` but then re-assigns `success = true`
unconditionally before pushing the outcome (main.rs:191), so the recorded
outcome still says `success = true`: the run carries `failures = 1` while
zero recorded outcomes have `succeeded = false`. -/
theorem delete_failure_recorded_as_success :
    cleanup_service exToday "svc" false
      [{ index_pattern := "logs-*", age_threshold := 30, date_pattern := none }] []
      [{ index_name := "logs-2023.01.01", size := 1024 }] (fun _ => false)
      = .ok { deletes := [{ name := "logs-2023.01.01", size := 1024, success := true }],
              total := 1024, total_remaining := 0,
              total_human_readable_msg :=
                "Cleanup finished for svc service: 1KiB data has been deleted. (Remaining data size: 0B)",
              failures := 1, reports := [] } ∧
    (([{ name := "logs-2023.01.01", size := 1024, success := true }] : List ServiceResult).filter
      (fun r => !r.success)).length = 0 ∧
    (0 : Nat) ≠ 1 :=
  ⟨by rfl, by rfl, by decide⟩

theorem notifAcc_short_descriptions (rs : List (String × ServiceResults)) :
    ∀ acc : NotifAcc, (rs.foldl notifStep acc).short_descriptions =
      acc.short_descriptions ++ rs.map (fun kv =>
        kv.2.total_human_readable_msg ++ " - " ++
        (if (kv.2.deletes.filter (fun r => !r.success)).length = 0
          then ":white_check_mark:" else ":x:")) := by
  induction rs with
  | nil => intro acc; simp
  | cons a rs ih =>
    intro acc
    have hstep : (notifStep acc a).short_descriptions = acc.short_descriptions ++
        [a.2.total_human_readable_msg ++ " - " ++
          (if (a.2.deletes.filter (fun r => !r.success)).length = 0
            then ":white_check_mark:" else ":x:")] := rfl
    rw [List.foldl_cons, ih, hstep, List.map_cons, List.append_assoc]
    rfl

theorem notifAcc_deleted_indexes (rs : List (String × ServiceResults)) :
    ∀ acc : NotifAcc, (rs.foldl notifStep acc).all_deleted_indexes =
      acc.all_deleted_indexes ++ (rs.map (fun kv => kv.2.deletes.map (fun d =>
        if d.success then
          ":white_check_mark: - " ++ d.name ++ " (" ++ kv.1 ++ ") - size: " ++
            toString d.size ++ " bytes"
        else ":x: - " ++ d.name ++ " (" ++ kv.1 ++ ")"))).flatten := by
  induction rs with
  | nil => intro acc; simp
  | cons a rs ih =>
    intro acc
    have hstep : (notifStep acc a).all_deleted_indexes = acc.all_deleted_indexes ++
        a.2.deletes.map (fun d =>
          if d.success then
            ":white_check_mark: - " ++ d.name ++ " (" ++ a.1 ++ ") - size: " ++
              toString d.size ++ " bytes"
          else ":x: - " ++ d.name ++ " (" ++ a.1 ++ ")") := rfl
    rw [List.foldl_cons, ih, hstep, List.map_cons, List.flatten_cons, List.append_assoc]

theorem notifAcc_has_failures (rs : List (String × ServiceResults)) :
    ∀ acc : NotifAcc, (rs.foldl notifStep acc).has_failures =
      (acc.has_failures ||
        rs.any (fun kv => 0 < (kv.2.deletes.filter (fun r => !r.success)).length)) := by
  induction rs with
  | nil => intro acc; simp
  | cons a rs ih =>
    intro acc
    have hstep : (notifStep acc a).has_failures =
        if 0 < (a.2.deletes.filter (fun r => !r.success)).length then true
        else acc.has_failures := rfl
    rw [List.foldl_cons, ih, hstep, List.any_cons]
    by_cases hc : 0 < (a.2.deletes.filter (fun r => !r.success)).length
    · simp [hc]
    · simp [hc]

/-- A list has a positive count of failed entries exactly when some entry
failed. -/
theorem filter_failures_pos (l : List ServiceResult) :
    decide (0 < (l.filter (fun r => !r.success)).length) = l.any (fun d => !d.success) := by
  cases hq : l.any (fun d => !d.success) with
  | false =>
    have hall := List.any_eq_false.mp hq
    have hnil : l.filter (fun r => !r.success) = [] :=
      List.filter_eq_nil_iff.mpr hall
    simp [hnil]
  | true =>
    obtain ⟨x, hx, hqx⟩ := List.any_eq_true.mp hq
    have hmem : x ∈ l.filter (fun r => !r.success) := List.mem_filter.mpr ⟨hx, hqx⟩
    have hlen : 0 < (l.filter (fun r => !r.success)).length :=
      List.length_pos.mpr (List.ne_nil_of_mem hmem)
    simp [hlen]

/-- Counterexample for C4: `send_notification` re-derives each service's
failure count from the `success` flags of the recorded deletions
(main.rs:225) and never reads the `failures` field of `ServiceResults`, so a
service with `failure_count = 1` but no recorded unsuccessful deletion gets
a checkmark and the overall `ok` colour; and a failed deletion's detail line
carries the service name but no size (main.rs:252). -/
theorem send_notification_claim_counterexample :
    (send_notification_payload
        [("svc", { deletes := [], total := 0, total_remaining := 0,
                   total_human_readable_msg := "m", failures := 1, reports := [] })]
        "proj" "").attachments.map (fun a => a.color) = ["#2EB67D"] ∧
    (notifAccOf
        [("svc", { deletes := [], total := 0, total_remaining := 0,
                   total_human_readable_msg := "m", failures := 1,
                   reports := [] })]).short_descriptions
      = ["m - :white_check_mark:"] ∧
    (1 : Nat) > 0 ∧
    (notifAccOf
        [("svc2", { deletes := [{ name := "idx-a", size := 5, success := false }], total := 5,
                    total_remaining := 0, total_human_readable_msg := "m2", failures := 1,
                    reports := [] })]).all_deleted_indexes
      = [":x: - idx-a (svc2)"] :=
  ⟨rfl, rfl, by decide, rfl⟩

/-- Claim C4 amended: the aggregated notification shows a per-service
checkmark exactly when that service's recorded deletions contain no
`succeeded = false` entry (a count the aggregator re-derives from the
`success` flags, not the `failure_count` field), the overall colour flag is
alert exactly when some service has a `succeeded = false` deletion, and, in
service order, each successful deletion yields one detail line with service
name and size while each failed deletion yields one detail line with the
service name only. -/
theorem send_notification_amended (all_results : List (String × ServiceResults))
    (aiven_project : String) (title_link_var : String) :
    ((send_notification_payload all_results aiven_project title_link_var).attachments.map
        (fun a => a.color)) =
      [if all_results.any (fun kv => kv.2.deletes.any (fun d => !d.success))
        then "#E01E5A" else "#2EB67D"] ∧
    (notifAccOf all_results).short_descriptions =
      all_results.map (fun kv =>
        kv.2.total_human_readable_msg ++ " - " ++
        (if (kv.2.deletes.filter (fun r => !r.success)).length = 0
          then ":white_check_mark:" else ":x:")) ∧
    (notifAccOf all_results).all_deleted_indexes =
      (all_results.map (fun kv => kv.2.deletes.map (fun d =>
        if d.success then
          ":white_check_mark: - " ++ d.name ++ " (" ++ kv.1 ++ ") - size: " ++
            toString d.size ++ " bytes"
        else ":x: - " ++ d.name ++ " (" ++ kv.1 ++ ")"))).flatten := by
  refine ⟨?_, ?_, ?_⟩
  · have hcolor : (send_notification_payload all_results aiven_project
        title_link_var).attachments.map (fun a => a.color) =
        [if (notifAccOf all_results).has_failures then "#E01E5A" else "#2EB67D"] := rfl
    rw [hcolor, notifAccOf, notifAcc_has_failures]
    have : ∀ kv : String × ServiceResults,
        (fun kv : String × ServiceResults =>
          decide (0 < (kv.2.deletes.filter (fun r => !r.success)).length)) kv =
        (fun kv : String × ServiceResults => kv.2.deletes.any (fun d => !d.success)) kv :=
      fun kv => filter_failures_pos kv.2.deletes
    rw [funext this]
    rw [Bool.false_or]
  · rw [notifAccOf, notifAcc_short_descriptions]
    rfl
  · rw [notifAccOf, notifAcc_deleted_indexes]
    rfl
